import Mathlib

/-!
Verification development for the Sense-Flow firmware core
(`src/Core/Src/main.c`): a producer/consumer pair around a fixed-capacity
circular buffer of sensor readings, plus a statistics engine
(population standard deviation, max, min, median).

Numeric values that the C code holds in `float` are modelled as exact
rationals (`ℚ`); `sqrt` is modelled as `Real.sqrt` on the rational
radicand.  Array reads that would be out of bounds in C (undefined
behavior) are modelled as reads of a default value `0` — every such spot
is noted in the corresponding doc comment.
-/

namespace SenseFlow

open scoped List

/-- `#define BUFFER_SIZE 100` (main.c line 44). -/
def BUFFER_SIZE : ℕ := 100

/-- `sensor_data_t` (main.c lines 10–14): one reading per sensor kind.
C `float` fields are modelled as `ℚ`. -/
structure sensor_data_t where
  PIR : ℚ
  humidity_and_heat : ℚ
  LDR : ℚ
deriving DecidableEq

/-- The shared circular-buffer state (main.c lines 51–52):
`sensor_data_t sensor_buffer[BUFFER_SIZE]` together with the cursors
`int buffer_head = 0, buffer_tail = 0`.  The backing array is modelled
as a total function from indices; the program only ever touches indices
`< BUFFER_SIZE`. -/
structure BufferState where
  sensor_buffer : ℕ → sensor_data_t
  buffer_head : ℕ
  buffer_tail : ℕ

/-- `buffer_push` (main.c lines 218–226):
`next_head = (buffer_head + 1) % BUFFER_SIZE`; if `next_head != buffer_tail`
store the reading at the old head, advance the head and return `true`,
else return `false` leaving the state untouched.  Returns the new state
paired with the C function's boolean result. -/
def buffer_push (s : BufferState) (data : sensor_data_t) : BufferState × Bool :=
  let next_head := (s.buffer_head + 1) % BUFFER_SIZE
  if next_head ≠ s.buffer_tail then
    ({ sensor_buffer := Function.update s.sensor_buffer s.buffer_head data
       buffer_head := next_head
       buffer_tail := s.buffer_tail }, true)
  else
    (s, false)

/-- The producer's per-iteration push handling (main.c lines 135–140):
`if (!buffer_push(d)) { buffer_head = (buffer_head + 1) % BUFFER_SIZE;
buffer_push(d); }` — on a full buffer it advances the *head* cursor and
retries the push with the same reading. -/
def producer_push_handling (s : BufferState) (d : sensor_data_t) : BufferState :=
  let r := buffer_push s d
  if r.2 then r.1
  else
    let s2 := { r.1 with buffer_head := (r.1.buffer_head + 1) % BUFFER_SIZE }
    (buffer_push s2 d).1

/-- A concrete buffer state used by the closed witness theorems:
all-zero storage, `head = 0`, `tail = 0` (the reset state of main.c). -/
def testBuffer : BufferState :=
  { sensor_buffer := fun _ => ⟨0, 0, 0⟩, buffer_head := 0, buffer_tail := 0 }

/-- A concrete buffer state whose next push fails: `head = 0`, `tail = 1`,
so `(head + 1) % BUFFER_SIZE = tail` (buffer full). -/
def fullBuffer : BufferState :=
  { sensor_buffer := fun _ => ⟨0, 0, 0⟩, buffer_head := 0, buffer_tail := 1 }

lemma buffer_push_false_eq {s : BufferState} {d : sensor_data_t}
    (h : (buffer_push s d).2 = false) : (buffer_push s d).1 = s := by
  unfold buffer_push at *
  by_cases hc : (s.buffer_head + 1) % BUFFER_SIZE ≠ s.buffer_tail
  · simp [hc] at h
  · simp [hc]

/-- **C1.** For every buffer state with in-range cursors, `buffer_push`
behaves as the ring-buffer contract states: when
`(head + 1) % N ≠ tail` it stores the reading at the old `head` index,
advances `head` to `(head + 1) % N` and returns `true`; when
`(head + 1) % N = tail` (buffer full) it returns `false`. -/
theorem buffer_push_contract (s : BufferState) (d : sensor_data_t)
    (hh : s.buffer_head < BUFFER_SIZE) (ht : s.buffer_tail < BUFFER_SIZE) :
    ((s.buffer_head + 1) % BUFFER_SIZE ≠ s.buffer_tail →
      (buffer_push s d).2 = true ∧
      (buffer_push s d).1.sensor_buffer s.buffer_head = d ∧
      (buffer_push s d).1.buffer_head = (s.buffer_head + 1) % BUFFER_SIZE) ∧
    ((s.buffer_head + 1) % BUFFER_SIZE = s.buffer_tail →
      (buffer_push s d).2 = false) := by
  constructor
  · intro hne
    refine ⟨?_, ?_, ?_⟩ <;> simp [buffer_push, hne, Function.update_same]
  · intro heq
    simp [buffer_push, heq]

/-- Closed witness for `buffer_push_contract` at the reset state
(`head = 0`, `tail = 0`, not full). -/
theorem buffer_push_contract_witness :
    (buffer_push testBuffer ⟨1, 2, 3⟩).2 = true ∧
    (buffer_push testBuffer ⟨1, 2, 3⟩).1.sensor_buffer 0 = ⟨1, 2, 3⟩ ∧
    (buffer_push testBuffer ⟨1, 2, 3⟩).1.buffer_head = 1 :=
  (buffer_push_contract testBuffer ⟨1, 2, 3⟩ (by decide) (by decide)).1 (by decide)

/-- **C10.** `buffer_push` modifies at most the head cursor and the storage
slot at the old head index: the tail cursor and every other slot are
unchanged by any call, and whenever it returns `false` the whole state is
exactly as before. -/
theorem buffer_push_frame (s : BufferState) (d : sensor_data_t) :
    (buffer_push s d).1.buffer_tail = s.buffer_tail ∧
    (∀ i, i ≠ s.buffer_head →
      (buffer_push s d).1.sensor_buffer i = s.sensor_buffer i) ∧
    ((buffer_push s d).2 = false → (buffer_push s d).1 = s) := by
  refine ⟨?_, ?_, fun h => buffer_push_false_eq h⟩
  · unfold buffer_push
    by_cases hc : (s.buffer_head + 1) % BUFFER_SIZE ≠ s.buffer_tail <;> simp [hc]
  · intro i hi
    unfold buffer_push
    by_cases hc : (s.buffer_head + 1) % BUFFER_SIZE ≠ s.buffer_tail <;>
      simp [hc, Function.update_noteq hi]

/-- Closed witness for `buffer_push_frame`: at the reset state a push leaves
the tail and the slot at index 5 unchanged, and at the full state the push
returns the state unchanged. -/
theorem buffer_push_frame_witness :
    (buffer_push testBuffer ⟨1, 2, 3⟩).1.buffer_tail = 0 ∧
    (buffer_push testBuffer ⟨1, 2, 3⟩).1.sensor_buffer 5 = ⟨0, 0, 0⟩ ∧
    (buffer_push fullBuffer ⟨1, 2, 3⟩).1 = fullBuffer :=
  ⟨(buffer_push_frame testBuffer ⟨1, 2, 3⟩).1,
   (buffer_push_frame testBuffer ⟨1, 2, 3⟩).2.1 5 (by decide),
   (buffer_push_frame fullBuffer ⟨1, 2, 3⟩).2.2 (by decide)⟩

/-- **C6.** In the producer's batch loop, whenever `buffer_push` returns
`false` (buffer full), the producer advances *head* — the write cursor —
by one modulo `BUFFER_SIZE` (the read cursor `tail` stays put), and then
retries `buffer_push` with the same reading. -/
theorem producer_full_advances_head (s : BufferState) (d : sensor_data_t)
    (h : (buffer_push s d).2 = false) :
    producer_push_handling s d =
      (buffer_push { s with buffer_head := (s.buffer_head + 1) % BUFFER_SIZE } d).1 ∧
    ({ s with buffer_head := (s.buffer_head + 1) % BUFFER_SIZE } : BufferState).buffer_tail
      = s.buffer_tail := by
  refine ⟨?_, rfl⟩
  unfold producer_push_handling
  simp only [h, Bool.false_eq_true, if_false, buffer_push_false_eq h]

/-- Closed witness for `producer_full_advances_head` at the full state
(`head = 0`, `tail = 1`). -/
theorem producer_full_advances_head_witness :
    producer_push_handling fullBuffer ⟨1, 2, 3⟩ =
      (buffer_push { fullBuffer with buffer_head := 1 } ⟨1, 2, 3⟩).1 ∧
    ({ fullBuffer with buffer_head := 1 } : BufferState).buffer_tail = 1 :=
  producer_full_advances_head fullBuffer ⟨1, 2, 3⟩ (by decide)

/-! ## Statistics engine (main.c lines 248–308)

The C functions take `(float data[], uint32_t count)`; every call site in
this program passes `count` equal to the array length, so the model takes
a single `List ℚ` whose length plays the role of `count`. -/

/-- The summation loop of `calculate_std_dev` (main.c lines 252–254):
`sum = 0.0; for i < count: sum += data[i]`. -/
def loopSum (data : List ℚ) : ℚ :=
  data.foldl (· + ·) 0

/-- The deviation loop of `calculate_std_dev` (main.c lines 260–262):
`std_dev = 0.0; for i < count: std_dev += pow(data[i] - mean, 2)`. -/
def loopSumSqDev (mean : ℚ) (data : List ℚ) : ℚ :=
  data.foldl (fun acc x => acc + (x - mean) ^ 2) 0

/-- The radicand returned by `calculate_std_dev` before the final `sqrt`
(main.c lines 248–264): `mean = sum / count` and then `std_dev / count`.
For `count = 0` the C code computes `0.0 / 0` (NaN); over `ℚ` division by
zero yields `0`. -/
def stdDevRadicand (data : List ℚ) : ℚ :=
  let sum := loopSum data
  let mean := sum / (data.length : ℚ)
  loopSumSqDev mean data / (data.length : ℚ)

/-- `calculate_std_dev` (main.c lines 248–265): `sqrt(std_dev / count)`. -/
noncomputable def calculate_std_dev (data : List ℚ) : ℝ :=
  Real.sqrt (stdDevRadicand data)

/-- The spec's formula, written from its words (§4.4): population standard
deviation `sqrt(sum((x_i - mean)^2) / n)` with `mean = sum(x) / n`,
normalized by `n` and not `n - 1`. -/
noncomputable def specStdDev (data : List ℚ) : ℝ :=
  Real.sqrt
    (((((data.map fun x => (x - data.sum / (data.length : ℚ)) ^ 2).sum)
      / (data.length : ℚ) : ℚ) : ℝ))

/-- The scan loop of `calculate_max` (main.c lines 270–274):
`for i = 1..count-1: if data[i] > max then max = data[i]`. -/
def maxLoop (m : ℚ) : List ℚ → ℚ
  | [] => m
  | x :: xs => maxLoop (if x > m then x else m) xs

/-- `calculate_max` (main.c lines 268–276): `max = data[0]`, then the scan
loop.  On an empty array the C read `data[0]` is out of bounds (undefined
behavior); `headI` models it as the default value `0`. -/
def calculate_max (data : List ℚ) : ℚ :=
  maxLoop data.headI data.tail

/-- The scan loop of `calculate_min` (main.c lines 281–285):
`for i = 1..count-1: if data[i] < min then min = data[i]`. -/
def minLoop (m : ℚ) : List ℚ → ℚ
  | [] => m
  | x :: xs => minLoop (if x < m then x else m) xs

/-- `calculate_min` (main.c lines 279–287): `min = data[0]`, then the scan
loop.  On an empty array the C read `data[0]` is out of bounds (undefined
behavior); `headI` models it as the default value `0`. -/
def calculate_min (data : List ℚ) : ℚ :=
  minLoop data.headI data.tail

/-- The inner loop of `calculate_median`'s exchange sort (main.c lines
294–300) for a fixed `i`: the accumulator `x` is the current content of
`data[i]`, the list argument is `data[i+1 ..]`.  Each step compares
`data[i] > data[j]` and swaps on greater; the result is the final
`data[i]` (the minimum of the segment) paired with the final
`data[i+1 ..]`. -/
def selectMin (x : ℚ) : List ℚ → ℚ × List ℚ
  | [] => (x, [])
  | y :: ys =>
    if x > y then
      let p := selectMin y ys
      (p.1, x :: p.2)
    else
      let p := selectMin x ys
      (p.1, y :: p.2)

/-- The outer loop of `calculate_median`'s exchange sort (main.c lines
293–301), phrased structurally: iteration `i` fixes `data[i]` to the
minimum of `data[i ..]` and recurses on the rest.  The fuel argument is
the initial length (the loop bound `count`); `selectMin` preserves length,
so the fuel never runs out on the recursive calls. -/
def selSortGo : ℕ → List ℚ → List ℚ
  | _, [] => []
  | 0, l => l
  | fuel + 1, x :: xs =>
    let p := selectMin x xs
    p.1 :: selSortGo fuel p.2

/-- The full in-place ascending exchange sort performed by
`calculate_median` (main.c lines 291–301) on its argument array. -/
def selSort (data : List ℚ) : List ℚ :=
  selSortGo data.length data

/-- The contents of the caller's array after `calculate_median` returns:
the function receives the array by pointer and sorts it in place, so the
caller's data is replaced by its ascending sort. -/
def medianEffect (data : List ℚ) : List ℚ :=
  selSort data

/-- `calculate_median` (main.c lines 290–308): sort the array ascending in
place, then return `data[count / 2]` for odd `count`, and
`(data[(count - 1) / 2] + data[count / 2]) / 2.0` for even `count`.
For `count = 0` the C even-case reads are out of bounds (with `uint32_t`
arithmetic `(count - 1) / 2` wraps to `2147483647`); `getD` models any
out-of-range read as the default value `0`. -/
def calculate_median (data : List ℚ) : ℚ :=
  let s := selSort data
  let count := data.length
  if count % 2 ≠ 0 then
    s.getD (count / 2) 0
  else
    (s.getD ((count - 1) / 2) 0 + s.getD (count / 2) 0) / 2

/-- The spec's median, written from its words (§4.4): sort ascending
(canonically, by insertion sort), then the middle element for odd length,
and the average of the two central elements for even length. -/
def specMedian (data : List ℚ) : ℚ :=
  let s := data.insertionSort (· ≤ ·)
  let n := data.length
  if n % 2 = 1 then
    s.getD (n / 2) 0
  else
    (s.getD (n / 2 - 1) 0 + s.getD (n / 2) 0) / 2

lemma foldl_add_eq (l : List ℚ) : ∀ c : ℚ, l.foldl (· + ·) c = c + l.sum := by
  induction l with
  | nil => intro c; simp
  | cons x xs ih => intro c; simp [ih, add_assoc]

lemma loopSum_eq_sum (data : List ℚ) : loopSum data = data.sum := by
  simpa using foldl_add_eq data 0

lemma foldl_add_map (f : ℚ → ℚ) (l : List ℚ) :
    ∀ c : ℚ, l.foldl (fun a x => a + f x) c = c + (l.map f).sum := by
  induction l with
  | nil => intro c; simp
  | cons x xs ih => intro c; simp [ih, add_assoc]

lemma loopSumSqDev_eq (m : ℚ) (data : List ℚ) :
    loopSumSqDev m data = (data.map fun x => (x - m) ^ 2).sum := by
  simpa [loopSumSqDev] using foldl_add_map (fun x => (x - m) ^ 2) data 0

lemma stdDevRadicand_eq (data : List ℚ) :
    stdDevRadicand data =
      ((data.map fun x => (x - data.sum / (data.length : ℚ)) ^ 2).sum)
        / (data.length : ℚ) := by
  simp [stdDevRadicand, loopSum_eq_sum, loopSumSqDev_eq]

/-- **C2.** For every numeric sequence of length `n ≥ 1`,
`calculate_std_dev` returns the population standard deviation
`sqrt(sum((x_i - mean)^2) / n)` with `mean = sum(x) / n` — normalized by
`n`, not by `n - 1`. -/
theorem calculate_std_dev_population (data : List ℚ) (h : 1 ≤ data.length) :
    calculate_std_dev data = specStdDev data := by
  unfold calculate_std_dev specStdDev
  rw [stdDevRadicand_eq]

/-- Closed witness for `calculate_std_dev_population` at `[2, 4]`
(the spec's end-to-end scenario 2, whose standard deviation is 1). -/
theorem calculate_std_dev_population_witness :
    1 ≤ ([2, 4] : List ℚ).length ∧
    calculate_std_dev [2, 4] = specStdDev [2, 4] :=
  ⟨by decide, calculate_std_dev_population [2, 4] (by decide)⟩

/-- **C4.** Evaluation of the statistics functions at the failing input
`count = 0` (the empty sequence): none of them fails with an
`InvalidInput` error — no error channel exists anywhere in the code
(every function totally returns a `float`).  `calculate_std_dev` computes
`mean = 0.0 / 0` (NaN in C, `0` over `ℚ`) and returns `sqrt` of the
radicand evaluated here; `calculate_max`/`calculate_min` return the
out-of-bounds read `data[0]`, and `calculate_median` averages two
out-of-bounds reads — all modelled as the default value `0`. -/
theorem stats_empty_input_return_values :
    calculate_max ([] : List ℚ) = 0 ∧
    calculate_min ([] : List ℚ) = 0 ∧
    stdDevRadicand ([] : List ℚ) = 0 ∧
    calculate_median ([] : List ℚ) = 0 := by
  refine ⟨rfl, rfl, by simp [stdDevRadicand, loopSum, loopSumSqDev], ?_⟩
  simp [calculate_median, selSort, selSortGo]

lemma selectMin_length (x : ℚ) (l : List ℚ) :
    (selectMin x l).2.length = l.length := by
  induction l generalizing x with
  | nil => rfl
  | cons y ys ih =>
    by_cases hxy : x > y <;> simp [selectMin, hxy, ih]

lemma selectMin_perm (x : ℚ) (l : List ℚ) :
    (selectMin x l).1 :: (selectMin x l).2 ~ x :: l := by
  induction l generalizing x with
  | nil => rfl
  | cons y ys ih =>
    by_cases hxy : x > y
    · simp only [selectMin, if_pos hxy]
      calc (selectMin y ys).1 :: x :: (selectMin y ys).2
          ~ x :: (selectMin y ys).1 :: (selectMin y ys).2 := List.Perm.swap _ _ _
        _ ~ x :: y :: ys := (ih y).cons x
    · simp only [selectMin, if_neg hxy]
      calc (selectMin x ys).1 :: y :: (selectMin x ys).2
          ~ y :: (selectMin x ys).1 :: (selectMin x ys).2 := List.Perm.swap _ _ _
        _ ~ y :: x :: ys := (ih x).cons y
        _ ~ x :: y :: ys := List.Perm.swap _ _ _

lemma selectMin_le (x : ℚ) (l : List ℚ) :
    (selectMin x l).1 ≤ x ∧ ∀ y ∈ (selectMin x l).2, (selectMin x l).1 ≤ y := by
  induction l generalizing x with
  | nil => exact ⟨le_rfl, by simp [selectMin]⟩
  | cons y ys ih =>
    by_cases hxy : x > y
    · obtain ⟨h1, h2⟩ := ih y
      simp only [selectMin, if_pos hxy, List.mem_cons]
      refine ⟨h1.trans hxy.le, ?_⟩
      rintro z (rfl | hz)
      · exact h1.trans hxy.le
      · exact h2 z hz
    · obtain ⟨h1, h2⟩ := ih x
      simp only [selectMin, if_neg hxy, List.mem_cons]
      refine ⟨h1, ?_⟩
      rintro z (rfl | hz)
      · exact h1.trans (not_lt.mp hxy)
      · exact h2 z hz

lemma selSortGo_perm : ∀ (fuel : ℕ) (l : List ℚ), l.length ≤ fuel →
    selSortGo fuel l ~ l := by
  intro fuel
  induction fuel with
  | zero =>
    intro l hl
    rw [List.length_eq_zero.mp (Nat.le_zero.mp hl)]
    rfl
  | succ n ih =>
    intro l hl
    match l with
    | [] => rfl
    | x :: xs =>
      simp only [selSortGo]
      have hlen : (selectMin x xs).2.length ≤ n := by
        rw [selectMin_length]
        simpa using hl
      calc (selectMin x xs).1 :: selSortGo n (selectMin x xs).2
          ~ (selectMin x xs).1 :: (selectMin x xs).2 := (ih _ hlen).cons _
        _ ~ x :: xs := selectMin_perm x xs

lemma selSortGo_sorted : ∀ (fuel : ℕ) (l : List ℚ), l.length ≤ fuel →
    List.Sorted (· ≤ ·) (selSortGo fuel l) := by
  intro fuel
  induction fuel with
  | zero =>
    intro l hl
    rw [List.length_eq_zero.mp (Nat.le_zero.mp hl)]
    exact List.sorted_nil
  | succ n ih =>
    intro l hl
    match l with
    | [] => exact List.sorted_nil
    | x :: xs =>
      simp only [selSortGo]
      have hlen : (selectMin x xs).2.length ≤ n := by
        rw [selectMin_length]
        simpa using hl
      refine List.sorted_cons.mpr ⟨?_, ih _ hlen⟩
      intro b hb
      exact (selectMin_le x xs).2 b ((selSortGo_perm n _ hlen).mem_iff.mp hb)

lemma selSort_perm (data : List ℚ) : selSort data ~ data :=
  selSortGo_perm data.length data le_rfl

lemma selSort_sorted (data : List ℚ) : List.Sorted (· ≤ ·) (selSort data) :=
  selSortGo_sorted data.length data le_rfl

lemma selSort_length (data : List ℚ) : (selSort data).length = data.length :=
  (selSort_perm data).length_eq

lemma selSort_eq_insertionSort (data : List ℚ) :
    selSort data = data.insertionSort (· ≤ ·) :=
  List.eq_of_perm_of_sorted
    ((selSort_perm data).trans (List.perm_insertionSort _ data).symm)
    (selSort_sorted data)
    (List.sorted_insertionSort _ data)

/-- **C3.** For every numeric sequence of length `n ≥ 1`,
`calculate_median` returns the middle element of the sequence sorted
ascending when `n` is odd, and the average of the two central elements of
the ascending sort when `n` is even — i.e. it agrees with the spec's
median `specMedian`. -/
theorem calculate_median_sorted_middle (data : List ℚ) (h : 1 ≤ data.length) :
    calculate_median data = specMedian data := by
  unfold calculate_median specMedian
  rw [selSort_eq_insertionSort]
  by_cases he : data.length % 2 = 0
  · have hidx : (data.length - 1) / 2 = data.length / 2 - 1 := by omega
    simp [he, hidx]
  · have ho : data.length % 2 = 1 := by omega
    simp [he, ho]

/-- Closed witness for `calculate_median_sorted_middle` at `[1, 2, 3]`. -/
theorem calculate_median_sorted_middle_witness :
    1 ≤ ([1, 2, 3] : List ℚ).length ∧
    calculate_median [1, 2, 3] = specMedian [1, 2, 3] :=
  ⟨by decide, calculate_median_sorted_middle [1, 2, 3] (by decide)⟩

lemma maxLoop_mem : ∀ (l : List ℚ) (m : ℚ), maxLoop m l ∈ m :: l := by
  intro l
  induction l with
  | nil => intro m; simp [maxLoop]
  | cons x xs ih =>
    intro m
    simp only [maxLoop]
    have h := ih (if x > m then x else m)
    by_cases hc : x > m <;> simp [hc] at h ⊢ <;> tauto

lemma maxLoop_ge : ∀ (l : List ℚ) (m : ℚ),
    m ≤ maxLoop m l ∧ ∀ v ∈ l, v ≤ maxLoop m l := by
  intro l
  induction l with
  | nil => intro m; simp [maxLoop]
  | cons x xs ih =>
    intro m
    obtain ⟨h1, h2⟩ := ih (if x > m then x else m)
    have hm : m ≤ if x > m then x else m := by
      by_cases hc : x > m <;> simp [hc]
      exact hc.le
    have hx : x ≤ if x > m then x else m := by
      by_cases hc : x > m <;> simp [hc]
      exact le_of_not_lt hc
    simp only [maxLoop, List.mem_cons]
    refine ⟨hm.trans h1, ?_⟩
    rintro v (rfl | hv)
    · exact hx.trans h1
    · exact h2 v hv

lemma minLoop_mem : ∀ (l : List ℚ) (m : ℚ), minLoop m l ∈ m :: l := by
  intro l
  induction l with
  | nil => intro m; simp [minLoop]
  | cons x xs ih =>
    intro m
    simp only [minLoop]
    have h := ih (if x < m then x else m)
    by_cases hc : x < m <;> simp [hc] at h ⊢ <;> tauto

lemma minLoop_le : ∀ (l : List ℚ) (m : ℚ),
    minLoop m l ≤ m ∧ ∀ v ∈ l, minLoop m l ≤ v := by
  intro l
  induction l with
  | nil => intro m; simp [minLoop]
  | cons x xs ih =>
    intro m
    obtain ⟨h1, h2⟩ := ih (if x < m then x else m)
    have hm : (if x < m then x else m) ≤ m := by
      by_cases hc : x < m <;> simp [hc]
      exact hc.le
    have hx : (if x < m then x else m) ≤ x := by
      by_cases hc : x < m <;> simp [hc]
      exact le_of_not_lt hc
    simp only [minLoop, List.mem_cons]
    refine ⟨h1.trans hm, ?_⟩
    rintro v (rfl | hv)
    · exact h1.trans hx
    · exact h2 v hv

lemma calculate_max_spec (x : ℚ) (xs : List ℚ) :
    calculate_max (x :: xs) ∈ x :: xs ∧
    ∀ v ∈ x :: xs, v ≤ calculate_max (x :: xs) := by
  have heq : calculate_max (x :: xs) = maxLoop x xs := rfl
  obtain ⟨h1, h2⟩ := maxLoop_ge xs x
  refine ⟨heq ▸ maxLoop_mem xs x, ?_⟩
  rw [heq]
  simp only [List.mem_cons]
  rintro v (rfl | hv)
  · exact h1
  · exact h2 v hv

lemma calculate_min_spec (x : ℚ) (xs : List ℚ) :
    calculate_min (x :: xs) ∈ x :: xs ∧
    ∀ v ∈ x :: xs, calculate_min (x :: xs) ≤ v := by
  have heq : calculate_min (x :: xs) = minLoop x xs := rfl
  obtain ⟨h1, h2⟩ := minLoop_le xs x
  refine ⟨heq ▸ minLoop_mem xs x, ?_⟩
  rw [heq]
  simp only [List.mem_cons]
  rintro v (rfl | hv)
  · exact h1
  · exact h2 v hv

lemma perm_ne_nil {l₁ l₂ : List ℚ} (h : l₁ ~ l₂) (hne : l₁ ≠ []) : l₂ ≠ [] := by
  intro h2
  rw [h2] at h
  exact hne h.eq_nil

lemma calculate_max_perm {l₁ l₂ : List ℚ} (h : l₁ ~ l₂) (hne : l₁ ≠ []) :
    calculate_max l₁ = calculate_max l₂ := by
  obtain ⟨x, xs, rfl⟩ := List.exists_cons_of_ne_nil hne
  obtain ⟨y, ys, rfl⟩ := List.exists_cons_of_ne_nil (perm_ne_nil h hne)
  obtain ⟨hmem1, hub1⟩ := calculate_max_spec x xs
  obtain ⟨hmem2, hub2⟩ := calculate_max_spec y ys
  exact le_antisymm (hub2 _ (h.mem_iff.mp hmem1)) (hub1 _ (h.mem_iff.mpr hmem2))

lemma calculate_min_perm {l₁ l₂ : List ℚ} (h : l₁ ~ l₂) (hne : l₁ ≠ []) :
    calculate_min l₁ = calculate_min l₂ := by
  obtain ⟨x, xs, rfl⟩ := List.exists_cons_of_ne_nil hne
  obtain ⟨y, ys, rfl⟩ := List.exists_cons_of_ne_nil (perm_ne_nil h hne)
  obtain ⟨hmem1, hlb1⟩ := calculate_min_spec x xs
  obtain ⟨hmem2, hlb2⟩ := calculate_min_spec y ys
  exact le_antisymm (hlb1 _ (h.mem_iff.mpr hmem2)) (hlb2 _ (h.mem_iff.mp hmem1))

lemma stdDevRadicand_perm {l₁ l₂ : List ℚ} (h : l₁ ~ l₂) :
    stdDevRadicand l₁ = stdDevRadicand l₂ := by
  rw [stdDevRadicand_eq, stdDevRadicand_eq, h.length_eq, h.sum_eq,
    List.Perm.sum_eq (h.map fun x => (x - l₂.sum / (l₂.length : ℚ)) ^ 2)]

/-- **C5 (counterexample).** The claim that the input array passed to
`calculate_median` is unchanged after the call fails at `[2, 1]`: the
function sorts the caller's array in place, leaving `[1, 2]`. -/
theorem calculate_median_mutates_input :
    medianEffect ([2, 1] : List ℚ) ≠ [2, 1] := by decide

/-- **C5 (amended).** `calculate_median` sorts its input array in place, so
after the call the array holds the ascending sort of its original
contents — a permutation of them, not necessarily the original order.
Because only the order changes, `calculate_std_dev`, `calculate_max` and
`calculate_min` applied to that same backing sequence afterwards still
return the same results as before the median call. -/
theorem median_mutation_preserves_stats (data : List ℚ) (h : 1 ≤ data.length) :
    medianEffect data ~ data ∧
    calculate_std_dev (medianEffect data) = calculate_std_dev data ∧
    calculate_max (medianEffect data) = calculate_max data ∧
    calculate_min (medianEffect data) = calculate_min data := by
  have hp : medianEffect data ~ data := selSort_perm data
  have hne : medianEffect data ≠ [] := by
    intro h0
    have hl := hp.length_eq
    rw [h0] at hl
    simp only [List.length_nil] at hl
    omega
  refine ⟨hp, ?_, calculate_max_perm hp hne, calculate_min_perm hp hne⟩
  unfold calculate_std_dev
  rw [stdDevRadicand_perm hp]

/-- Closed witness for `median_mutation_preserves_stats` at `[2, 1]`. -/
theorem median_mutation_preserves_stats_witness :
    medianEffect ([2, 1] : List ℚ) ~ [2, 1] ∧
    calculate_std_dev (medianEffect [2, 1]) = calculate_std_dev [2, 1] ∧
    calculate_max (medianEffect [2, 1]) = calculate_max [2, 1] ∧
    calculate_min (medianEffect [2, 1]) = calculate_min [2, 1] :=
  median_mutation_preserves_stats [2, 1] (by decide)

lemma getD_mem_of_lt (l : List ℚ) (i : ℕ) (h : i < l.length) :
    l.getD i 0 ∈ l := by
  rw [List.getD_eq_getElem l 0 h]
  exact List.getElem_mem h

/-- **C8.** For every non-empty numeric sequence,
`calculate_min x ≤ calculate_median x ≤ calculate_max x`. -/
theorem min_le_median_le_max (data : List ℚ) (h : 1 ≤ data.length) :
    calculate_min data ≤ calculate_median data ∧
    calculate_median data ≤ calculate_max data := by
  have hne : data ≠ [] := List.length_pos.mp (by omega)
  obtain ⟨x, xs, rfl⟩ := List.exists_cons_of_ne_nil hne
  obtain ⟨_, hlb⟩ := calculate_min_spec x xs
  obtain ⟨_, hub⟩ := calculate_max_spec x xs
  have hslen : (selSort (x :: xs)).length = (x :: xs).length :=
    selSort_length (x :: xs)
  have hmem1 : (selSort (x :: xs)).getD ((x :: xs).length / 2) 0 ∈ x :: xs :=
    (selSort_perm (x :: xs)).mem_iff.mp
      (getD_mem_of_lt _ _ (by rw [hslen]; simp; omega))
  have hmem2 :
      (selSort (x :: xs)).getD (((x :: xs).length - 1) / 2) 0 ∈ x :: xs :=
    (selSort_perm (x :: xs)).mem_iff.mp
      (getD_mem_of_lt _ _ (by rw [hslen]; simp; omega))
  have hb1 := And.intro (hlb _ hmem1) (hub _ hmem1)
  have hb2 := And.intro (hlb _ hmem2) (hub _ hmem2)
  simp only [calculate_median]
  split_ifs with hif
  · exact hb1
  · constructor
    · have := hb1.1
      have := hb2.1
      linarith
    · have := hb1.2
      have := hb2.2
      linarith

/-- Closed witness for `min_le_median_le_max` at `[1, 2, 3]`. -/
theorem min_le_median_le_max_witness :
    calculate_min ([1, 2, 3] : List ℚ) ≤ calculate_median [1, 2, 3] ∧
    calculate_median ([1, 2, 3] : List ℚ) ≤ calculate_max [1, 2, 3] :=
  min_le_median_le_max [1, 2, 3] (by decide)

/-! ## Consumer copy-out and statistics cycle (main.c lines 151–215) -/

/-- `filtered_data_for_ble` (main.c lines 24–37): the twelve statistics in
the fixed field order of the C struct.  Standard deviations are real
(they carry a square root); the other statistics are rational. -/
structure filtered_data_for_ble where
  pir_std_dev : ℝ
  pir_max : ℚ
  pir_min : ℚ
  pir_median : ℚ
  humidity_and_heat_std_dev : ℝ
  humidity_and_heat_max : ℚ
  humidity_and_heat_min : ℚ
  humidity_and_heat_median : ℚ
  ldr_std_dev : ℝ
  ldr_max : ℚ
  ldr_min : ℚ
  ldr_median : ℚ

/-- The consumer's copy-out of the PIR components (main.c lines 167–175):
`for i < BUFFER_SIZE: pir_data[i] = sensor_buffer[i].PIR` — every slot of
the backing array, unconditionally. -/
def pir_data (s : BufferState) : List ℚ :=
  (List.range BUFFER_SIZE).map fun i => (s.sensor_buffer i).PIR

/-- The consumer's copy-out of the humidity/heat components
(main.c lines 167–175). -/
def humidity_and_heat_data (s : BufferState) : List ℚ :=
  (List.range BUFFER_SIZE).map fun i => (s.sensor_buffer i).humidity_and_heat

/-- The consumer's copy-out of the LDR components (main.c lines 167–175). -/
def ldr_data (s : BufferState) : List ℚ :=
  (List.range BUFFER_SIZE).map fun i => (s.sensor_buffer i).LDR

/-- The statistics phase of one consumer cycle (main.c lines 182–210):
the twelve statistics, each computed over the corresponding copied-out
length-`BUFFER_SIZE` sequence, packed in struct field order. -/
noncomputable def consumer_filtered_data (s : BufferState) :
    filtered_data_for_ble :=
  { pir_std_dev := calculate_std_dev (pir_data s)
    pir_max := calculate_max (pir_data s)
    pir_min := calculate_min (pir_data s)
    pir_median := calculate_median (pir_data s)
    humidity_and_heat_std_dev := calculate_std_dev (humidity_and_heat_data s)
    humidity_and_heat_max := calculate_max (humidity_and_heat_data s)
    humidity_and_heat_min := calculate_min (humidity_and_heat_data s)
    humidity_and_heat_median := calculate_median (humidity_and_heat_data s)
    ldr_std_dev := calculate_std_dev (ldr_data s)
    ldr_max := calculate_max (ldr_data s)
    ldr_min := calculate_min (ldr_data s)
    ldr_median := calculate_median (ldr_data s) }

/-- **C7.** Each consumer cycle's copy-out reads all `BUFFER_SIZE = 100`
slots of the backing array unconditionally — independently of the `head`
and `tail` cursors, including slots never written — producing three
per-kind sequences of length exactly `BUFFER_SIZE`, and all twelve
statistics are computed over those length-`BUFFER_SIZE` sequences. -/
theorem consumer_snapshot_full_array (s : BufferState) (h t : ℕ) :
    (pir_data s).length = BUFFER_SIZE ∧
    (humidity_and_heat_data s).length = BUFFER_SIZE ∧
    (ldr_data s).length = BUFFER_SIZE ∧
    pir_data { s with buffer_head := h, buffer_tail := t } = pir_data s ∧
    humidity_and_heat_data { s with buffer_head := h, buffer_tail := t }
      = humidity_and_heat_data s ∧
    ldr_data { s with buffer_head := h, buffer_tail := t } = ldr_data s ∧
    consumer_filtered_data { s with buffer_head := h, buffer_tail := t }
      = consumer_filtered_data s ∧
    (∀ i, i < BUFFER_SIZE → (pir_data s).getD i 0 = (s.sensor_buffer i).PIR) ∧
    consumer_filtered_data s =
      { pir_std_dev := calculate_std_dev (pir_data s)
        pir_max := calculate_max (pir_data s)
        pir_min := calculate_min (pir_data s)
        pir_median := calculate_median (pir_data s)
        humidity_and_heat_std_dev :=
          calculate_std_dev (humidity_and_heat_data s)
        humidity_and_heat_max := calculate_max (humidity_and_heat_data s)
        humidity_and_heat_min := calculate_min (humidity_and_heat_data s)
        humidity_and_heat_median := calculate_median (humidity_and_heat_data s)
        ldr_std_dev := calculate_std_dev (ldr_data s)
        ldr_max := calculate_max (ldr_data s)
        ldr_min := calculate_min (ldr_data s)
        ldr_median := calculate_median (ldr_data s) } := by
  refine ⟨by simp [pir_data], by simp [humidity_and_heat_data],
    by simp [ldr_data], rfl, rfl, rfl, rfl, ?_, rfl⟩
  intro i hi
  have hlen : i < (pir_data s).length := by simp [pir_data]; omega
  rw [List.getD_eq_getElem _ _ hlen]
  simp [pir_data]

/-- Closed witness for `consumer_snapshot_full_array` at the reset buffer
with cursors `3` and `7`. -/
theorem consumer_snapshot_full_array_witness :
    (pir_data testBuffer).length = BUFFER_SIZE ∧
    (pir_data testBuffer).getD 0 0 = (testBuffer.sensor_buffer 0).PIR :=
  ⟨(consumer_snapshot_full_array testBuffer 3 7).1,
   (consumer_snapshot_full_array testBuffer 3 7).2.2.2.2.2.2.2.1 0 (by decide)⟩

/-! ## Handshake semantics (main.c lines 102–112, 119–148, 151–215)

A small-step model of the two tasks' use of the two binary semaphores.
The buffer and mutex activity inside a producer batch or a consumer cycle
does not touch the semaphores, so a whole batch (and a whole cycle) is
one phase here. -/

/-- Producer control position: blocked at
`xSemaphoreTake(producer_semaphore, ...)` (main.c line 122) or executing
the batch body (lines 125–146). -/
inductive ProducerPhase where
  | waitSlot
  | inBatch
deriving DecidableEq

/-- Consumer control position: blocked at
`xSemaphoreTake(consumer_semaphore, ...)` (main.c line 161) or executing
the cycle body (lines 164–213). -/
inductive ConsumerPhase where
  | waitData
  | inCycle
deriving DecidableEq

/-- Joint state of the handshake: the two task positions and the two
binary-semaphore flags (`true` = one pending wake-up). -/
structure HandshakeState where
  producerPhase : ProducerPhase
  consumerPhase : ConsumerPhase
  producer_semaphore : Bool
  consumer_semaphore : Bool
deriving DecidableEq

/-- Modelled from the spec: the initial state after `main` (main.c lines
102–112).  The FreeRTOS primitive `xSemaphoreCreateBinary` is not part of
this repository; per the spec (§5 initial-condition hazard, §9 unbounded
initial producer wait) the created semaphore starts unsignaled and
nothing signals the producer-ready channel at boot.  Both tasks start at
the top of their loops, blocked on their takes. -/
def initState : HandshakeState :=
  { producerPhase := ProducerPhase.waitSlot
    consumerPhase := ConsumerPhase.waitData
    producer_semaphore := false
    consumer_semaphore := false }

/-- One transition of the handshake: the four semaphore operations in the
source.  A take (main.c lines 122, 161) fires only when its semaphore is
signaled and consumes the signal; a give (lines 146, 179) sets the flag
(binary semaphores coalesce repeated gives).  The only transition that
signals `producer_semaphore` is `consumerSignal`, which requires the
consumer to be inside a cycle — i.e. already woken by `consumerTake`. -/
inductive HandshakeStep : HandshakeState → HandshakeState → Prop where
  | producerTake {s : HandshakeState} :
      s.producerPhase = ProducerPhase.waitSlot →
      s.producer_semaphore = true →
      HandshakeStep s { s with producerPhase := ProducerPhase.inBatch
                               producer_semaphore := false }
  | producerSignal {s : HandshakeState} :
      s.producerPhase = ProducerPhase.inBatch →
      HandshakeStep s { s with producerPhase := ProducerPhase.waitSlot
                               consumer_semaphore := true }
  | consumerTake {s : HandshakeState} :
      s.consumerPhase = ConsumerPhase.waitData →
      s.consumer_semaphore = true →
      HandshakeStep s { s with consumerPhase := ConsumerPhase.inCycle
                               consumer_semaphore := false }
  | consumerSignal {s : HandshakeState} :
      s.consumerPhase = ConsumerPhase.inCycle →
      HandshakeStep s { s with consumerPhase := ConsumerPhase.waitData
                               producer_semaphore := true }

/-- States reachable from `initState` by handshake transitions. -/
inductive HandshakeReachable : HandshakeState → Prop where
  | init : HandshakeReachable initState
  | step {s s2 : HandshakeState} :
      HandshakeReachable s → HandshakeStep s s2 → HandshakeReachable s2

lemma initState_stuck (s2 : HandshakeState) :
    ¬ HandshakeStep initState s2 := by
  intro hs
  cases hs with
  | producerTake h1 h2 => simp [initState] at h2
  | producerSignal h1 => simp [initState] at h1
  | consumerTake h1 h2 => simp [initState] at h2
  | consumerSignal h1 => simp [initState] at h1

/-- **C9.** In every execution from initialization, no signal is ever sent
on `producer_semaphore` before the producer's first wait on it completes:
the binary semaphore is created unsignaled, the only give of
`producer_semaphore` (the `consumerSignal` transition, main.c line 179)
requires the consumer to have been woken first, and in fact every
reachable state is the initial one — the producer-ready flag stays
`false`, the producer never leaves its first wait, and the system takes
no transition at all (the startup deadlock the spec flags). -/
theorem producer_semaphore_never_signaled (s : HandshakeState)
    (h : HandshakeReachable s) :
    s.producer_semaphore = false ∧
    s.producerPhase = ProducerPhase.waitSlot ∧
    s = initState := by
  induction h with
  | init => exact ⟨rfl, rfl, rfl⟩
  | step hr hs ih =>
    rcases ih with ⟨-, -, rfl⟩
    exact absurd hs (initState_stuck _)

/-- Closed witness for `producer_semaphore_never_signaled` at the initial
state. -/
theorem producer_semaphore_never_signaled_witness :
    initState.producer_semaphore = false :=
  (producer_semaphore_never_signaled initState HandshakeReachable.init).1

end SenseFlow
